import Mathlib

/-!
Verification of the note-mark markdown pipeline.

This file is a shallow embedding, in Lean 4, of the core of the note-mark
library: the lexer stack (`src/layer/lexer.rs`), the recursive-descent
parser (`src/layer/parser.rs`), the HTML transformer and stringifier
(`src/layer/transformer.rs`, `src/layer/stringifier.rs`) and the table of
contents builder (`src/layer/toc.rs`), together with theorems about the
behaviour this code exhibits.

Modelling conventions:
* Rust `usize`/`u8`/`u32` counters are modelled as `Nat`; none of the
  theorems below exercise inputs anywhere near an overflow boundary.
* The input string is modelled as its character list (`List Char`), and
  byte offsets are recovered through `Char.utf8Size`, mirroring
  `char_indices` / `len_utf8` in the source.
* Code that can panic (out-of-range slice indexing) is embedded in an
  `Except` monad with error value `Err.oob`; code whose top-level loop can
  fail to make progress is given an explicit step budget (`fuel`), with
  error value `Err.fuel` meaning "the budget was exhausted before the loop
  finished".  The lexer also uses a step budget, but there it is merely a
  structural-recursion device: each step advances the cursor by at least
  one, so `input.length + 1` steps provably always suffice
  (`lexerRun_congr_fuel`).
-/

namespace NoteMark

/-! ## Token model (`src/model/token.rs`) -/

/-- `TokenKind` from `src/model/token.rs`. -/
inductive TokenKind where
  | Text
  | Space
  | Tab
  | Break
  | Backslash
  | Pound
  | Star
  | Colon
  | Backquote
  | Gt
  | Hyphen
  | VerticalBar
  | Dot
  | OpenParen
  | CloseParen
  | OpenBrace
  | CloseBrace
  | OpenBracket
  | CloseBracket
deriving DecidableEq

/-- `Token` from `src/model/token.rs`: a kind plus the byte range
`start..start+len` into the source text. -/
structure Token where
  kind : TokenKind
  start : Nat
  len : Nat
deriving DecidableEq

/-! ## Lexer (`src/layer/lexer.rs`) -/

/-- The characters that may follow a backslash to form an escape
(`lexer.rs:66-85`): the fourteen recognized punctuation marks and the
backslash itself. -/
def isEscapable (c : Char) : Bool :=
  c = '#' || c = '*' || c = ':' || c = '\x60' || c = '>' || c = '-' || c = '|' || c = '.' ||
  c = '(' || c = ')' || c = '\x7b' || c = '\x7d' || c = '[' || c = ']' || c = '\\'

/-- The single-character token classification of `Lexer::next`
(`lexer.rs:41-58` plus the default arm), for characters other than the
lookahead cases `'\r'` and `'\\'`. -/
def punctKind (c : Char) : TokenKind :=
  if c = '#' then .Pound
  else if c = '*' then .Star
  else if c = ':' then .Colon
  else if c = '\x60' then .Backquote
  else if c = '>' then .Gt
  else if c = '-' then .Hyphen
  else if c = '|' then .VerticalBar
  else if c = '.' then .Dot
  else if c = '(' then .OpenParen
  else if c = ')' then .CloseParen
  else if c = '\x7b' then .OpenBrace
  else if c = '\x7d' then .CloseBrace
  else if c = '[' then .OpenBracket
  else if c = ']' then .CloseBracket
  else if c = ' ' then .Space
  else if c = '\t' then .Tab
  else if c = '\n' then .Break
  else .Text

/-- Helper for `charIndices`: pair every character with its byte offset,
starting from `i`. -/
def charIndicesGo : Nat → List Char → List (Nat × Char)
  | _, [] => []
  | i, c :: cs => (i, c) :: charIndicesGo (i + c.utf8Size) cs

/-- Rust's `str::char_indices`: every character of the input paired with its
UTF-8 byte offset. -/
def charIndices (s : List Char) : List (Nat × Char) :=
  charIndicesGo 0 s

/-- The UTF-8 byte length of the input. -/
def byteLen (s : List Char) : Nat :=
  (s.map Char.utf8Size).sum

/-- One call of `Lexer::next` (`lexer.rs:35-107`).  `cursor` is the struct's
byte-offset cursor; the source evaluates
`self.input.char_indices().skip(self.cursor)`, i.e. it passes this byte
offset to a *character-count* skip, which this embedding reproduces
verbatim with `List.drop cursor`.  Returns the emitted token together with
the updated cursor, or `none` at end of input. -/
def lexerNext (ci : List (Nat × Char)) (cursor : Nat) : Option (Token × Nat) :=
  match ci.drop cursor with
  | [] => none
  | (index, c) :: rest =>
    let len := c.utf8Size
    if c = '\r' then
      match rest with
      | (_, c2) :: _ =>
        if c2 = '\n' then
          some (⟨.Break, index, len + c2.utf8Size⟩, cursor + (len + c2.utf8Size))
        else
          some (⟨.Text, index, len⟩, cursor + len)
      | [] => some (⟨.Text, index, len⟩, cursor + len)
    else if c = '\\' then
      match rest with
      | (_, c2) :: _ =>
        if isEscapable c2 then
          some (⟨.Text, index + len, c2.utf8Size⟩, cursor + (len + c2.utf8Size))
        else
          some (⟨.Text, index, len⟩, cursor + len)
      | [] => some (⟨.Text, index, len⟩, cursor + len)
    else
      some (⟨punctKind c, index, len⟩, cursor + len)

/-- The lexer iteration: repeated `Lexer::next` until it yields `None`.
The step budget is a structural-recursion device only; see
`lexerRun_congr_fuel`. -/
def lexerRun : Nat → List (Nat × Char) → Nat → List Token
  | 0, _, _ => []
  | fuel + 1, ci, cursor =>
    match lexerNext ci cursor with
    | none => []
    | some (t, cursor') => t :: lexerRun fuel ci cursor'

/-- The raw tokenizer: the token stream of the bare `Lexer` struct, before
`TextJoiner` and `SpaceCutter`. -/
def rawLex (s : List Char) : List Token :=
  lexerRun (s.length + 1) (charIndices s) 0

theorem lexerNext_cursor_lt {ci : List (Nat × Char)} {cursor : Nat} {t : Token} {cursor' : Nat}
    (h : lexerNext ci cursor = some (t, cursor')) : cursor < cursor' ∧ cursor < ci.length := by
  have hdrop : ci.drop cursor ≠ [] := by
    intro hnil
    simp [lexerNext, hnil] at h
  have hlen : cursor < ci.length := by
    by_contra hle
    exact hdrop (List.drop_eq_nil_of_le (le_of_not_lt hle))
  refine ⟨?_, hlen⟩
  rcases hd : ci.drop cursor with _ | ⟨⟨index, c⟩, rest⟩
  · exact absurd hd hdrop
  · have hpos := Char.utf8Size_pos c
    simp only [lexerNext, hd] at h
    rcases rest with _ | ⟨⟨i2, c2⟩, rest2⟩
    · repeat' split at h
      all_goals try contradiction
      all_goals
        simp only [Option.some.injEq, Prod.mk.injEq] at h
        obtain ⟨-, h⟩ := h
        omega
    · have hpos2 := Char.utf8Size_pos c2
      repeat' split at h
      all_goals try contradiction
      all_goals
        simp only [Option.some.injEq, Prod.mk.injEq] at h
        obtain ⟨-, h⟩ := h
        omega

/-- Any two step budgets large enough to cover the remaining characters give
the same lexer output: the budget used by `rawLex` is not a semantic
truncation. -/
theorem lexerRun_congr_fuel (ci : List (Nat × Char)) :
    ∀ fuel fuel' cursor, ci.length ≤ cursor + fuel → ci.length ≤ cursor + fuel' →
      lexerRun fuel ci cursor = lexerRun fuel' ci cursor := by
  intro fuel
  induction fuel using Nat.strong_induction_on with
  | _ fuel ih =>
    intro fuel' cursor h h'
    match fuel, fuel' with
    | 0, 0 => rfl
    | 0, fuel' + 1 =>
      have : ci.drop cursor = [] := List.drop_eq_nil_of_le (by omega)
      simp [lexerRun, lexerNext, this]
    | fuel + 1, 0 =>
      have : ci.drop cursor = [] := List.drop_eq_nil_of_le (by omega)
      simp [lexerRun, lexerNext, this]
    | fuel + 1, fuel' + 1 =>
      rcases hn : lexerNext ci cursor with _ | ⟨t, cursor'⟩
      · simp [lexerRun, hn]
      · have hc := lexerNext_cursor_lt hn
        simp only [lexerRun, hn]
        rw [ih fuel (by omega) fuel' cursor' (by omega) (by omega)]

/-! ## Text-run joiner (`lexer.rs:122-141`) -/

/-- `TextJoiner::next`: a `Text` token absorbs the maximal following run of
`Text` tokens, summing their lengths; other tokens pass through. -/
def textJoiner : List Token → List Token
  | [] => []
  | t :: rest =>
    if t.kind = TokenKind.Text then
      { t with len := t.len + ((rest.takeWhile fun x => x.kind == TokenKind.Text).map Token.len).sum }
        :: textJoiner (rest.dropWhile fun x => x.kind == TokenKind.Text)
    else
      t :: textJoiner rest
termination_by ts => ts.length
decreasing_by
  · have := (List.dropWhile_sublist (l := rest) fun x => x.kind == TokenKind.Text).length_le
    simp only [List.length_cons]
    omega
  · simp

/-! ## Blank-line normalizer (`lexer.rs:155-186`) -/

/-- Space-or-tab test used by the normalizer's whitespace scan. -/
def isSpaceTab (k : TokenKind) : Bool :=
  k == TokenKind.Space || k == TokenKind.Tab

/-- The guard of `SpaceCutter::next` (`lexer.rs:163-166`): the token just
emitted is a `Break`, there is a next token, and it is not another
`Break`. -/
def spaceCutterTrigger (t : Token) (rest : List Token) : Bool :=
  t.kind == TokenKind.Break &&
    match rest.head? with
    | some r => r.kind != TokenKind.Break
    | none => false

/-- The result of the forward scan `for n in 0..` of `SpaceCutter::next`
(`lexer.rs:167-181`): walking past the leading run of `Space`/`Tab`
tokens, the loop consumes that run exactly when it ends at a `Break`
(`lexer.rs:171-174`) or at end of stream (`lexer.rs:177-180`); any other
token aborts the scan without consuming. -/
def cutsRun (rest : List Token) : Bool :=
  match rest.dropWhile fun x => isSpaceTab x.kind with
  | [] => true
  | b :: _ => b.kind == TokenKind.Break

/-- `SpaceCutter::next` iterated over the whole stream: after a qualifying
`Break`, scan through the run of `Space`/`Tab` tokens; if that run ends at
a `Break` or at end of stream, consume (drop) the run, otherwise emit
nothing extra and continue. -/
def spaceCutter : List Token → List Token
  | [] => []
  | t :: rest =>
    if spaceCutterTrigger t rest && cutsRun rest then
      t :: spaceCutter (rest.dropWhile fun x => isSpaceTab x.kind)
    else
      t :: spaceCutter rest
termination_by ts => ts.length
decreasing_by
  · have h2 := (List.dropWhile_sublist (l := rest) fun x => isSpaceTab x.kind).length_le
    simp only [List.length_cons]
    omega
  · simp

/-- The full lexing pipeline `lex` (`lexer.rs:15-19`): raw lexer, then text
joiner, then blank-line normalizer. -/
def lex (s : List Char) : List Token :=
  spaceCutter (textJoiner (rawLex s))

/-! ## Lexer-layer theorems (claims C2, C6, C7, C8) -/

/-- C2.  The claim asserts that for *every* UTF-8 input the raw tokenizer's
ranges concatenate back to the whole input.  The code fails this: the
cursor is a byte offset but is passed to a character-count `skip`, so a
multi-byte character desynchronizes the scan.  On the source's own unit
test input `"あああ"` (three 3-byte characters, 9 bytes in all) the lexer
emits a single token covering bytes `0..3` and then stops, so the
concatenated ranges cover 3 of the 9 input bytes — and `test_lexer`
(`lexer.rs:224-229`), which expects three `Text` tokens here, fails. -/
theorem c2_rawLex_coverage_bug :
    rawLex "あああ".toList = [⟨TokenKind.Text, 0, 3⟩] ∧
    ((rawLex "あああ".toList).map Token.len).sum = 3 ∧
    byteLen "あああ".toList = 9 := by
  decide

/-- C6.  Escape fidelity of the raw tokenizer: for every recognized
punctuation character `c` (backslash included), lexing `"\" ++ c` yields
exactly one token, of kind `Text`, spanning just `c` (source: the escape
branch `lexer.rs:66-95`); and a backslash not followed by an escapable
character is emitted as a `Text` token spanning the backslash itself. -/
theorem c6_escape_fidelity :
    (∀ c : Char, isEscapable c = true → rawLex ['\\', c] = [⟨TokenKind.Text, 1, 1⟩]) ∧
    (∀ rest : List Char, (∀ c ∈ rest.head?, isEscapable c = false) →
      (rawLex ('\\' :: rest)).head? = some ⟨TokenKind.Text, 0, 1⟩) := by
  constructor
  · intro c hc
    have : c = '#' ∨ c = '*' ∨ c = ':' ∨ c = '\x60' ∨ c = '>' ∨ c = '-' ∨ c = '|' ∨ c = '.' ∨
        c = '(' ∨ c = ')' ∨ c = '\x7b' ∨ c = '\x7d' ∨ c = '[' ∨ c = ']' ∨ c = '\\' := by
      simpa [isEscapable, or_assoc] using hc
    rcases this with h | h | h | h | h | h | h | h | h | h | h | h | h | h | h <;> subst h <;> decide
  · intro rest hrest
    rcases rest with _ | ⟨c2, rest2⟩
    · decide
    · have hc2 : isEscapable c2 = false := hrest c2 rfl
      simp [rawLex, lexerRun, lexerNext, charIndices, charIndicesGo, hc2]
      decide

/-- Head kinds are preserved by the text joiner. -/
theorem textJoiner_head?_kind (ts : List Token) :
    (textJoiner ts).head?.map Token.kind = ts.head?.map Token.kind := by
  match ts with
  | [] => simp [textJoiner]
  | t :: rest =>
    by_cases h : t.kind = TokenKind.Text <;> simp [textJoiner, h]

/-- The head of `dropWhile p l`, when present, fails `p`. -/
theorem head?_dropWhile_not {α : Type} (p : α → Bool) (l : List α) :
    ∀ a ∈ (l.dropWhile p).head?, p a = false := by
  induction l with
  | nil => simp
  | cons x xs ih =>
    by_cases h : p x <;> simp_all [List.dropWhile_cons]

/-- No two adjacent tokens of kind `Text`. -/
def noAdjText (ts : List Token) : Prop :=
  List.Chain' (fun a b => ¬(a.kind = TokenKind.Text ∧ b.kind = TokenKind.Text)) ts

/-- The output of the text joiner never contains two adjacent `Text`
tokens. -/
theorem textJoiner_noAdjText (ts : List Token) : noAdjText (textJoiner ts) := by
  induction ts using textJoiner.induct with
  | case1 => simp [noAdjText, textJoiner]
  | case2 t rest h ih =>
    simp only [textJoiner, if_pos h]
    rcases hd : (textJoiner (rest.dropWhile fun x => x.kind == TokenKind.Text)) with _ | ⟨u, us⟩
    · simp [noAdjText]
    · have hu : u.kind ≠ TokenKind.Text := by
        have h1 := textJoiner_head?_kind (rest.dropWhile fun x => x.kind == TokenKind.Text)
        rw [hd] at h1
        rcases hh : (rest.dropWhile fun x => x.kind == TokenKind.Text).head? with _ | ⟨v⟩
        · rw [hh] at h1; simp at h1
        · have hv := head?_dropWhile_not (fun x => x.kind == TokenKind.Text) rest v (by rw [hh]; rfl)
          rw [hh] at h1
          simp only [List.head?_cons, Option.map_some'] at h1
          have huv : u.kind = v.kind := by injection h1
          rw [huv]
          intro hcon
          simp [hcon] at hv
      rw [hd] at ih
      unfold noAdjText
      rw [List.chain'_cons]
      exact ⟨fun hcon => hu hcon.2, ih⟩
  | case3 t rest h ih =>
    simp only [textJoiner, if_neg h]
    rcases hd : textJoiner rest with _ | ⟨u, us⟩
    · simp [noAdjText]
    · rw [hd] at ih
      unfold noAdjText
      rw [List.chain'_cons]
      exact ⟨fun hcon => h hcon.1, ih⟩

/-- On a stream with no adjacent `Text` tokens the text joiner is the
identity. -/
theorem textJoiner_eq_self (ts : List Token) (hts : noAdjText ts) : textJoiner ts = ts := by
  induction ts with
  | nil => simp [textJoiner]
  | cons t rest ih =>
    by_cases h : t.kind = TokenKind.Text
    · have hrest : rest.takeWhile (fun x => x.kind == TokenKind.Text) = [] ∧
          rest.dropWhile (fun x => x.kind == TokenKind.Text) = rest := by
        rcases rest with _ | ⟨u, us⟩
        · simp
        · have hu : ¬(t.kind = TokenKind.Text ∧ u.kind = TokenKind.Text) :=
            (List.chain'_cons.mp hts).1
          have hu2 : ¬u.kind = TokenKind.Text := fun hc => hu ⟨h, hc⟩
          constructor
          · simp [List.takeWhile_cons, hu2]
          · simp [List.dropWhile_cons, hu2]
      simp only [textJoiner, if_pos h, hrest.1, hrest.2, List.map_nil, List.sum_nil,
        Nat.add_zero]
      rw [ih (List.Chain'.tail hts)]
    · simp only [textJoiner, if_neg h]
      rw [ih (List.Chain'.tail hts)]

/-- C8.  The text-run joiner is idempotent: applied to its own output it
changes nothing (source: `TextJoiner::next`, `lexer.rs:122-141`). -/
theorem c8_textJoiner_idempotent (ts : List Token) :
    textJoiner (textJoiner ts) = textJoiner ts :=
  textJoiner_eq_self (textJoiner ts) (textJoiner_noAdjText ts)

/-- Modelled from the specification's wording of the blank-line normalizer
(claim C7 / spec §4.1): after a `Break` that is not immediately followed by
another `Break`, a maximal run of `Space`/`Tab` tokens that is terminated
by a `Break` or by end of stream is removed; all other tokens pass through
unchanged in order. -/
def blankCutSpec : List Token → List Token
  | [] => []
  | t :: rest =>
    if t.kind == TokenKind.Break
        && (match rest.head? with | some r => r.kind != TokenKind.Break | none => true)
        && (match (rest.dropWhile fun x => isSpaceTab x.kind).head? with
            | some b => b.kind == TokenKind.Break
            | none => true) then
      t :: blankCutSpec (rest.dropWhile fun x => isSpaceTab x.kind)
    else
      t :: blankCutSpec rest
termination_by ts => ts.length
decreasing_by
  · have h2 := (List.dropWhile_sublist (l := rest) fun x => isSpaceTab x.kind).length_le
    simp only [List.length_cons]
    omega
  · simp

/-- On a non-empty tail the code's guard and the specification's guard agree. -/
theorem spaceCutter_cond_eq (t r : Token) (rs : List Token) :
    (spaceCutterTrigger t (r :: rs) && cutsRun (r :: rs)) =
      (t.kind == TokenKind.Break
        && (match (r :: rs).head? with | some x => x.kind != TokenKind.Break | none => true)
        && (match ((r :: rs).dropWhile fun x => isSpaceTab x.kind).head? with
            | some b => b.kind == TokenKind.Break
            | none => true)) := by
  simp only [spaceCutterTrigger, List.head?_cons]
  rcases hd : (r :: rs).dropWhile fun x => isSpaceTab x.kind with _ | ⟨b, bs⟩ <;>
    simp [cutsRun, hd, Bool.and_assoc]

/-- C7.  The blank-line normalizer is exactly the specification's
description (first conjunct), and consequently a line holding only
spaces/tabs normalizes exactly like an empty line (second conjunct).
Source: `SpaceCutter::next`, `lexer.rs:155-186`. -/
theorem c7_blank_line_normalizer (ts : List Token) :
    spaceCutter ts = blankCutSpec ts ∧
    (∀ b1 b2 : Token, ∀ ws post : List Token, b1.kind = TokenKind.Break →
      b2.kind = TokenKind.Break → (∀ w ∈ ws, isSpaceTab w.kind = true) →
      spaceCutter (b1 :: (ws ++ b2 :: post)) = spaceCutter (b1 :: b2 :: post)) := by
  constructor
  · induction ts using spaceCutter.induct with
    | case1 => simp [spaceCutter, blankCutSpec]
    | case2 t rest hcond ih =>
      rcases rest with _ | ⟨r, rs⟩
      · simp [spaceCutterTrigger] at hcond
      · rw [spaceCutter, if_pos hcond, blankCutSpec,
          if_pos (by rw [← spaceCutter_cond_eq]; exact hcond), ih]
    | case3 t rest hcond ih =>
      rcases rest with _ | ⟨r, rs⟩
      · by_cases ht : t.kind == TokenKind.Break <;>
          simp [spaceCutter, blankCutSpec, spaceCutterTrigger, cutsRun, ht]
      · rw [spaceCutter, if_neg hcond, blankCutSpec,
          if_neg (by rw [← spaceCutter_cond_eq]; exact hcond), ih]
  · intro b1 b2 ws post hb1 hb2 hws
    rcases ws with _ | ⟨w, ws'⟩
    · rfl
    · have hw := hws w (by simp)
      have hwB : w.kind ≠ TokenKind.Break := by
        rcases hk : w.kind <;> simp [isSpaceTab, hk] at hw ⊢
      have hdrop : ∀ l : List Token, (∀ x ∈ l, isSpaceTab x.kind = true) →
          (l ++ b2 :: post).dropWhile (fun x => isSpaceTab x.kind) = b2 :: post := by
        intro l
        induction l with
        | nil =>
          intro _
          simp [List.dropWhile_cons, isSpaceTab, hb2]
        | cons y ys ihy =>
          intro hall
          have := hall y (by simp)
          simp only [List.cons_append, List.dropWhile_cons, this, if_true]
          exact ihy (fun x hx => hall x (by simp [hx]))
      have hdrop2 := hdrop (w :: ws') hws
      have htrig : spaceCutterTrigger b1 (w :: ws' ++ b2 :: post) = true := by
        simp [spaceCutterTrigger, hb1, List.cons_append, hwB]
      have hrun : cutsRun (w :: ws' ++ b2 :: post) = true := by
        simp only [cutsRun]
        rw [List.cons_append] at hdrop2 ⊢
        rw [hdrop2]
        simp [hb2]
      have hL : spaceCutter (b1 :: (w :: ws' ++ b2 :: post)) = b1 :: spaceCutter (b2 :: post) := by
        rw [spaceCutter, if_pos (by rw [htrig, hrun]; rfl)]
        rw [List.cons_append] at hdrop2
        rw [List.cons_append, hdrop2]
      have hR : spaceCutter (b1 :: b2 :: post) = b1 :: spaceCutter (b2 :: post) := by
        rw [spaceCutter, if_neg (by simp [spaceCutterTrigger, hb2])]
      rw [hL, hR]

/-! ## Syntax tree model (`src/model/tree.rs`)

The Rust wrappers `MarkdownTree`, `BlockTree`, `ListTree` and `InlineTree`
each hold a single `root` vector; they are represented here directly by
the root lists.  Borrowed `&'a str` / `Cow<'a, str>` text is represented
by the character list it denotes. -/

mutual

/-- `BlockItem` from `src/model/tree.rs`. -/
inductive BlockItem where
  | Paragraph (tree : List InlineItem)
  | Headline (level : Nat) (tree : List InlineItem)
  | BulletList (root : List ListItem)
  | OrderedList (root : List ListItem)
  | BlockQuote (root : List BlockItem)
  | Container (classes : List String) (root : List BlockItem)

/-- `ListItem` from `src/model/tree.rs`: a label (`name`) and child blocks. -/
inductive ListItem where
  | mk (name : List InlineItem) (children : List BlockItem)

/-- `InlineItem` from `src/model/tree.rs`. -/
inductive InlineItem where
  | Text (s : List Char)
  | Italic (tree : List InlineItem)
  | Strong (tree : List InlineItem)
  | Break

end

/-- The label of a list item. -/
def ListItem.name : ListItem → List InlineItem
  | .mk n _ => n

/-- The children of a list item. -/
def ListItem.children : ListItem → List BlockItem
  | .mk _ c => c

/-! ## Parser configuration (`parser.rs:36-97`) -/

/-- `ParagraphEnding` (`parser.rs:58-61`). -/
inductive ParagraphEnding where
  | AllowSoftBreak
  | HardBreak
deriving DecidableEq

/-- `HeadlineEnding` (`parser.rs:66-70`). -/
inductive HeadlineEnding where
  | SoftBreak
  | AllowSoftBreak
  | HardBreak
deriving DecidableEq

/-- `IndentRule` (`parser.rs:74-77`). -/
inductive IndentRule where
  | Strict
  | Loose
deriving DecidableEq

/-- `IndentStyle` (`parser.rs:81-85`); the `u8` space width is modelled as
`Nat`. -/
inductive IndentStyle where
  | Space (n : Nat)
  | Tab
  | Both
deriving DecidableEq

/-- The `Parser` configuration struct (`parser.rs:36-48`). -/
structure Parser where
  paragraph_ending : ParagraphEnding
  headline_ending : HeadlineEnding
  list_indent_rule : IndentRule
  list_indent_style : IndentStyle
deriving DecidableEq

/-- `Parser::default` (`parser.rs:88-97`). -/
def Parser.default : Parser :=
  ⟨ParagraphEnding.HardBreak, HeadlineEnding.HardBreak, IndentRule.Strict, IndentStyle.Space 2⟩

/-! ## Failure modelling

`Err.oob` marks a Rust panic (an out-of-bounds slice index); `Err.fuel`
marks exhaustion of the explicit step budget that stands in for loops the
source runs without one (relevant because the top-level block loop can in
fact fail to make progress; see claim C1).  `Err.todo` marks the source's
`todo!()` arm. -/
inductive Err where
  | oob
  | fuel
  | todo
deriving DecidableEq

/-- Result monad of the embedded parser. -/
abbrev M (α : Type) : Type := Except Err α

/-! ## Slice utilities (`parser.rs:250-461`) -/

/-- `Executor::trim_start` (`parser.rs:252-268`). -/
def trimStart : List Token → TokenKind → List Token
  | [], _ => []
  | t :: rest, kind => if t.kind == kind then trimStart rest kind else t :: rest

/-- `Executor::trim_end` (`parser.rs:271-287`): the source pops matching
tokens off the end; popping from the end is trimming the reverse from the
front. -/
def trimEnd (tokens : List Token) (kind : TokenKind) : List Token :=
  (trimStart tokens.reverse kind).reverse

/-- `Executor::trim` (`parser.rs:290-292`). -/
def trim (tokens : List Token) (kind : TokenKind) : List Token :=
  trimStart (trimEnd tokens kind) kind

/-- The loop of `Executor::trim_white_spaces` (`parser.rs:295-308`),
with an explicit iteration budget: each non-fixpoint round strictly
shortens the list, so `tokens.length + 1` rounds always reach the
fixpoint. -/
def trimWhiteSpacesGo : Nat → List Token → List Token
  | 0, rest => rest
  | fuel + 1, rest =>
    let newRest := trimStart (trimStart rest TokenKind.Space) TokenKind.Tab
    if newRest.length = rest.length then rest else trimWhiteSpacesGo fuel newRest

/-- `Executor::trim_white_spaces` (`parser.rs:295-308`). -/
def trimWhiteSpaces (tokens : List Token) : List Token :=
  trimWhiteSpacesGo (tokens.length + 1) tokens

/-- `Executor::get_line` (`parser.rs:315-331`). -/
def getLine (tokens : List Token) (trimArg : Bool) : List Token × List Token :=
  match tokens.findIdx? fun t => t.kind == TokenKind.Break with
  | some index =>
    if trimArg then
      (tokens.take index, trimStart (tokens.drop (index + 1)) TokenKind.Break)
    else
      (tokens.take index, tokens.drop (index + 1))
  | none => (trimEnd tokens TokenKind.Break, [])

/-- `Executor::get_paragraph` (`parser.rs:334-345`): split at the first two
adjacent `Break` tokens (`windows(2)` becomes zipping with the tail). -/
def getParagraph (tokens : List Token) : List Token × List Token :=
  match (tokens.zip tokens.tail).findIdx?
      (fun p => p.1.kind == TokenKind.Break && p.2.kind == TokenKind.Break) with
  | some index => (tokens.take index, trimStart (tokens.drop (index + 2)) TokenKind.Break)
  | none => (trimEnd tokens TokenKind.Break, [])

/-- The `Space`+`Tab` weighted count of the `IndentStyle::Both` arm of
`indent_level` (`parser.rs:378-390`). -/
def countBoth : List Token → Nat
  | [] => 0
  | t :: rest =>
    if t.kind == TokenKind.Space then 1 + countBoth rest
    else if t.kind == TokenKind.Tab then 2 + countBoth rest
    else 0

/-- `Executor::indent_level` (`parser.rs:352-392`), returning
`(level, remainder)`.  The `u8`/`u32` counters are `Nat`s, hence
`IndentStyle.Space 0`, which makes the source panic with a division by
zero, here yields `(0, 0)`; no theorem below relies on that
configuration. -/
def indentLevel (tokens : List Token) (style : IndentStyle) : Nat × Nat :=
  match style with
  | IndentStyle.Space n =>
    let level := (tokens.takeWhile fun t => t.kind == TokenKind.Space).length
    (level / n, level % n)
  | IndentStyle.Tab =>
    ((tokens.takeWhile fun t => t.kind == TokenKind.Tab).length, 0)
  | IndentStyle.Both =>
    let level := countBoth tokens
    (level / 2, level % 2)

/-- Rust slice `&l[k..]`: total for `k ≤ l.len()`, a panic beyond. -/
def sliceFrom (l : List Token) (k : Nat) : M (List Token) :=
  if k ≤ l.length then Except.ok (l.drop k) else Except.error Err.oob

/-- Rust string slicing `&input[start..start+len]`, modelled on the
character list as the characters whose byte offset falls in the range. -/
def sliceBytes (input : List Char) (start len : Nat) : List Char :=
  ((charIndices input).filter fun p => start ≤ p.1 && p.1 < start + len).map Prod.snd

/-- `Executor::reduce_indent` (`parser.rs:399-449`): strip one indent unit
(and with `format`, also the remainder) from every line.  Recursion is on
the line structure; the budget `fuel` covers one recursion per line. -/
def reduceIndent : Nat → List Token → IndentStyle → Bool → M (List Token)
  | 0, _, _, _ => Except.error Err.fuel
  | fuel + 1, rest, style, format =>
    if rest = [] then Except.ok []
    else
      let (line, newRest) := getLine rest false
      let (level, remainder) := indentLevel line style
      do
        let piece ←
          if level = 0 then Except.ok line
          else
            match style with
            | IndentStyle.Space n =>
              if format then sliceFrom line (n + remainder) else sliceFrom line n
            | IndentStyle.Tab => sliceFrom line 1
            | IndentStyle.Both =>
              match line.head? with
              | some t0 =>
                if t0.kind == TokenKind.Space then
                  if format then sliceFrom line (2 + remainder) else sliceFrom line 2
                else sliceFrom line 1
              | none => Except.error Err.oob
        let tail ← reduceIndent fuel newRest style format
        let brk := match rest[line.length]? with
          | some b => [b]
          | none => []
        Except.ok (piece ++ brk ++ tail)

/-- `Executor::align_indent` (`parser.rs:451-460`). -/
def alignIndent (tokens : List Token) (style : IndentStyle) (rule : IndentRule) : List Token :=
  match rule with
  | IndentRule.Strict => tokens
  | IndentRule.Loose => tokens.drop (indentLevel tokens style).2

/-! ## Inline layer (`parser.rs:826-896`) -/

/-- `Executor::break` (`parser.rs:890-896`): `tokens[0]` panics on an empty
slice. -/
def breakItem (tokens : List Token) : M (Option (InlineItem × List Token))  :=
  match tokens with
  | [] => Except.error Err.oob
  | t :: rest =>
    if t.kind == TokenKind.Break then Except.ok (some (InlineItem.Break, rest))
    else Except.ok none

mutual

/-- The loop of `Executor::inline_tree` (`parser.rs:826-853`): try
`strong`, `italic`, `break` in that order; otherwise append the token's
text to the trailing `Text` item (or start one).  `acc` is the reversed
list built so far (its head is the vector's last element). -/
def inlineGo : Nat → List Char → List Token → List InlineItem → M (List InlineItem)
  | 0, _, _, _ => Except.error Err.fuel
  | fuel + 1, input, tokens, acc =>
    match tokens with
    | [] => Except.ok acc.reverse
    | t :: rest =>
      match strong fuel input (t :: rest) with
      | Except.error e => Except.error e
      | Except.ok (some (item, newRest)) => inlineGo fuel input newRest (item :: acc)
      | Except.ok none =>
        match italic fuel input (t :: rest) with
        | Except.error e => Except.error e
        | Except.ok (some (item, newRest)) => inlineGo fuel input newRest (item :: acc)
        | Except.ok none =>
          match breakItem (t :: rest) with
          | Except.error e => Except.error e
          | Except.ok (some (item, newRest)) => inlineGo fuel input newRest (item :: acc)
          | Except.ok none =>
            match acc with
            | InlineItem.Text s :: acc' =>
              inlineGo fuel input rest (InlineItem.Text (s ++ sliceBytes input t.start t.len) :: acc')
            | _ => inlineGo fuel input rest (InlineItem.Text (sliceBytes input t.start t.len) :: acc)

/-- `Executor::italic` (`parser.rs:856-870`): `tokens[0]` panics on an
empty slice; the closing `*` is the first `Star` at index ≥ 1. -/
def italic : Nat → List Char → List Token → M (Option (InlineItem × List Token))
  | 0, _, _ => Except.error Err.fuel
  | fuel + 1, input, tokens =>
    match tokens with
    | [] => Except.error Err.oob
    | t :: _ =>
      if t.kind != TokenKind.Star then Except.ok none
      else
        match (tokens.drop 1).findIdx? fun x => x.kind == TokenKind.Star with
        | none => Except.ok none
        | some j =>
          let index := j + 1
          match inlineGo fuel input ((tokens.take index).drop 1) [] with
          | Except.error e => Except.error e
          | Except.ok tree =>
            Except.ok (some (InlineItem.Italic tree, tokens.drop (index + 1)))

/-- `Executor::strong` (`parser.rs:873-887`): `tokens[0]` panics on an
empty slice; the closing `**` search starts at window index 1, and the
source then slices `&tokens[2..index]`, which panics when `index < 2`
(reachable: `index = 1`, i.e. three leading stars). -/
def strong : Nat → List Char → List Token → M (Option (InlineItem × List Token))
  | 0, _, _ => Except.error Err.fuel
  | fuel + 1, input, tokens =>
    match tokens with
    | [] => Except.error Err.oob
    | t :: rest =>
      if t.kind != TokenKind.Star then Except.ok none
      else
        match rest.head? with
        | none => Except.ok none
        | some t1 =>
          if t1.kind != TokenKind.Star then Except.ok none
          else
            match ((tokens.zip tokens.tail).drop 1).findIdx?
                (fun p => p.1.kind == TokenKind.Star && p.2.kind == TokenKind.Star) with
            | none => Except.ok none
            | some j =>
              let index := j + 1
              if 2 ≤ index then
                match inlineGo fuel input ((tokens.take index).drop 2) [] with
                | Except.error e => Except.error e
                | Except.ok tree =>
                  Except.ok (some (InlineItem.Strong tree, tokens.drop (index + 2)))
              else Except.error Err.oob

end

/-- `Executor::inline_tree` (`parser.rs:826-853`). -/
def inlineTree (fuel : Nat) (input : List Char) (tokens : List Token) : M (List InlineItem) :=
  inlineGo fuel input tokens []

/-! ## Block layer (`parser.rs:463-818`) -/

/-- The level-counting loop of `Executor::headline` (`parser.rs:527-544`):
`for i in 0..7`, a `Pound` continues, a `Space` fixes the level at `i` and
stops, any other token aborts; a missing token merely skips the round.
The source's `level` stays `0` whenever the loop ends any other way, and
level `0` makes the production fail, so `0` doubles as the failure
value here exactly as it does there. -/
def headlineLevelGo (tokens : List Token) : Nat → Nat → Nat
  | _, 0 => 0
  | i, rounds + 1 =>
    match tokens[i]? with
    | some t =>
      if t.kind == TokenKind.Pound then headlineLevelGo tokens (i + 1) rounds
      else if t.kind == TokenKind.Space then i
      else 0
    | none => headlineLevelGo tokens (i + 1) rounds

/-- Level detection of `Executor::headline` (`parser.rs:527-544`):
`rounds = 7` models `for i in 0..7` (falling out of the loop leaves
`level = 0`, the failure value). -/
def headlineLevel (tokens : List Token) : Nat :=
  headlineLevelGo tokens 0 7

/-- The label-collecting loop of `Executor::list_item`
(`parser.rs:678-704`): consecutive zero-indent lines are joined with
inline `Break` separators; `acc` is the label built so far. -/
def labelLoop : Nat → Parser → List Char → List Token → List InlineItem →
    M (List InlineItem × List Token)
  | 0, _, _, _, _ => Except.error Err.fuel
  | fuel + 1, cfg, input, thisRest, acc =>
    if thisRest = [] then Except.ok (acc, thisRest)
    else
      let (line, rest) := getLine thisRest false
      if line = [] then Except.ok (acc, thisRest)
      else if (indentLevel line cfg.list_indent_style).1 ≠ 0 then Except.ok (acc, thisRest)
      else
        match inlineTree fuel input line with
        | Except.error e => Except.error e
        | Except.ok tr => labelLoop fuel cfg input rest (acc ++ tr ++ [InlineItem.Break])

mutual

/-- The loop of `Executor::block_tree` (`parser.rs:473-489`): while tokens
remain, try `not_paragraph` then `paragraph`; push the produced item and
continue on the remainder.  The source runs this loop without any budget;
`fuel` bounds the number of steps the embedding is willing to take, and
`Err.fuel` reports that the budget ran out first. -/
def blockTreeGo : Nat → Parser → List Char → List Token → M (List BlockItem)
  | 0, _, _, _ => Except.error Err.fuel
  | fuel + 1, cfg, input, tokens =>
    if tokens = [] then Except.ok []
    else
      match notParagraph fuel cfg input tokens with
      | Except.error e => Except.error e
      | Except.ok (some (item, rest)) =>
        match blockTreeGo fuel cfg input rest with
        | Except.error e => Except.error e
        | Except.ok tr => Except.ok (item :: tr)
      | Except.ok none =>
        match paragraph fuel cfg input tokens with
        | Except.error e => Except.error e
        | Except.ok (some (item, rest)) =>
          match blockTreeGo fuel cfg input rest with
          | Except.error e => Except.error e
          | Except.ok tr => Except.ok (item :: tr)
        | Except.ok none => blockTreeGo fuel cfg input tokens

/-- `Executor::paragraph` (`parser.rs:492-505`). -/
def paragraph : Nat → Parser → List Char → List Token → M (Option (BlockItem × List Token))
  | 0, _, _, _ => Except.error Err.fuel
  | fuel + 1, cfg, input, tokens =>
    match cfg.paragraph_ending with
    | ParagraphEnding.HardBreak =>
      let (inp, rest) := getParagraph tokens
      match inlineTree fuel input inp with
      | Except.error e => Except.error e
      | Except.ok tr => Except.ok (some (BlockItem.Paragraph tr, rest))
    | ParagraphEnding.AllowSoftBreak =>
      match gum fuel cfg input tokens with
      | Except.error e => Except.error e
      | Except.ok (inp, rest) =>
        match inlineTree fuel input inp with
        | Except.error e => Except.error e
        | Except.ok tr => Except.ok (some (BlockItem.Paragraph tr, rest))

/-- `Executor::not_paragraph` (`parser.rs:508-521`): headline, bullet list,
ordered list, blockquote, in that order. -/
def notParagraph : Nat → Parser → List Char → List Token → M (Option (BlockItem × List Token))
  | 0, _, _, _ => Except.error Err.fuel
  | fuel + 1, cfg, input, tokens =>
    match headline fuel cfg input tokens with
    | Except.error e => Except.error e
    | Except.ok (some r) => Except.ok (some r)
    | Except.ok none =>
      match bulletList fuel cfg input tokens with
      | Except.error e => Except.error e
      | Except.ok (some r) => Except.ok (some r)
      | Except.ok none =>
        match orderedList fuel cfg input tokens with
        | Except.error e => Except.error e
        | Except.ok (some r) => Except.ok (some r)
        | Except.ok none =>
          match blockquote fuel cfg input tokens with
          | Except.error e => Except.error e
          | Except.ok (some r) => Except.ok (some r)
          | Except.ok none => Except.ok none

/-- `Executor::headline` (`parser.rs:524-574`). -/
def headline : Nat → Parser → List Char → List Token → M (Option (BlockItem × List Token))
  | 0, _, _, _ => Except.error Err.fuel
  | fuel + 1, cfg, input, tokens =>
    let tokens := trimWhiteSpaces tokens
    let level := headlineLevel tokens
    if level = 0 then Except.ok none
    else
      let content := trimStart (tokens.drop level) TokenKind.Space
      match cfg.headline_ending with
      | HeadlineEnding.SoftBreak =>
        let (inp, rest) := getLine content true
        match inlineTree fuel input inp with
        | Except.error e => Except.error e
        | Except.ok tr => Except.ok (some (BlockItem.Headline level tr, rest))
      | HeadlineEnding.AllowSoftBreak =>
        match gum fuel cfg input content with
        | Except.error e => Except.error e
        | Except.ok (inp, rest) =>
          match inlineTree fuel input inp with
          | Except.error e => Except.error e
          | Except.ok tr => Except.ok (some (BlockItem.Headline level tr, rest))
      | HeadlineEnding.HardBreak =>
        let (inp, rest) := getParagraph content
        match inlineTree fuel input inp with
        | Except.error e => Except.error e
        | Except.ok tr => Except.ok (some (BlockItem.Headline level tr, rest))

/-- `Executor::bullet_list` (`parser.rs:577-615`).  In the loop
(`bulletLoop`) a `None` from `get(..)?` aborts the whole production,
discarding items collected so far — that is Rust's `?` inside the loop. -/
def bulletList : Nat → Parser → List Char → List Token → M (Option (BlockItem × List Token))
  | 0, _, _, _ => Except.error Err.fuel
  | fuel + 1, cfg, input, tokens =>
    let input2 := alignIndent tokens cfg.list_indent_style cfg.list_indent_rule
    match input2[0]?, input2[1]? with
    | some a, some b =>
      if a.kind == TokenKind.Hyphen && b.kind == TokenKind.Space then
        match bulletLoop fuel cfg input tokens [] with
        | Except.error e => Except.error e
        | Except.ok none => Except.ok none
        | Except.ok (some (items, rest)) => Except.ok (some (BlockItem.BulletList items, rest))
      else Except.ok none
    | _, _ => Except.ok none

/-- The item loop of `Executor::bullet_list` (`parser.rs:592-612`). -/
def bulletLoop : Nat → Parser → List Char → List Token → List ListItem →
    M (Option (List ListItem × List Token))
  | 0, _, _, _, _ => Except.error Err.fuel
  | fuel + 1, cfg, input, rest, acc =>
    if rest = [] then Except.ok (some (acc, rest))
    else
      let input3 := alignIndent rest cfg.list_indent_style cfg.list_indent_rule
      match input3[0]? with
      | none => Except.ok none
      | some a =>
        if a.kind != TokenKind.Hyphen then Except.ok (some (acc, rest))
        else
          match input3[1]? with
          | none => Except.ok none
          | some b =>
            if b.kind != TokenKind.Space then Except.ok (some (acc, rest))
            else
              match gum fuel cfg input (rest.drop 2) with
              | Except.error e => Except.error e
              | Except.ok (inp, newRest) =>
                if inp = [] then Except.ok (some (acc, rest))
                else
                  match listItem fuel cfg input inp with
                  | Except.error e => Except.error e
                  | Except.ok item => bulletLoop fuel cfg input newRest (acc ++ [item])

/-- `Executor::ordered_list` (`parser.rs:617-675`). -/
def orderedList : Nat → Parser → List Char → List Token → M (Option (BlockItem × List Token))
  | 0, _, _, _ => Except.error Err.fuel
  | fuel + 1, cfg, input, tokens =>
    let input2 := alignIndent tokens cfg.list_indent_style cfg.list_indent_rule
    match input2[0]?, input2[1]?, input2[2]? with
    | some a, some b, some c =>
      if a.kind == TokenKind.Text && b.kind == TokenKind.Dot && c.kind == TokenKind.Space then
        match tokens with
        | [] => Except.error Err.oob
        | t0 :: _ =>
          if !((sliceBytes input t0.start t0.len).all Char.isDigit) then Except.ok none
          else
            match orderedLoop fuel cfg input tokens [] with
            | Except.error e => Except.error e
            | Except.ok none => Except.ok none
            | Except.ok (some (items, rest)) =>
              Except.ok (some (BlockItem.OrderedList items, rest))
      else Except.ok none
    | _, _, _ => Except.ok none

/-- The item loop of `Executor::ordered_list` (`parser.rs:642-672`). -/
def orderedLoop : Nat → Parser → List Char → List Token → List ListItem →
    M (Option (List ListItem × List Token))
  | 0, _, _, _, _ => Except.error Err.fuel
  | fuel + 1, cfg, input, rest, acc =>
    if rest = [] then Except.ok (some (acc, rest))
    else
      let input3 := alignIndent rest cfg.list_indent_style cfg.list_indent_rule
      match input3[0]? with
      | none => Except.ok none
      | some a =>
        if a.kind != TokenKind.Text then Except.ok (some (acc, rest))
        else
          match input3[1]? with
          | none => Except.ok none
          | some b =>
            if b.kind != TokenKind.Dot then Except.ok (some (acc, rest))
            else
              match input3[2]? with
              | none => Except.ok none
              | some c =>
                if c.kind != TokenKind.Space then Except.ok (some (acc, rest))
                else if !((sliceBytes input a.start a.len).all Char.isDigit) then
                  Except.ok (some (acc, rest))
                else
                  match gum fuel cfg input (rest.drop 3) with
                  | Except.error e => Except.error e
                  | Except.ok (inp, newRest) =>
                    if inp = [] then Except.ok (some (acc, rest))
                    else
                      match listItem fuel cfg input inp with
                      | Except.error e => Except.error e
                      | Except.ok item => orderedLoop fuel cfg input newRest (acc ++ [item])

/-- `Executor::list_item` (`parser.rs:677-712`): collect the label lines,
`pop` the trailing inline `Break`, then indent-reduce the remainder and
parse it as child blocks. -/
def listItem : Nat → Parser → List Char → List Token → M ListItem
  | 0, _, _, _ => Except.error Err.fuel
  | fuel + 1, cfg, input, tokens =>
    match labelLoop fuel cfg input tokens [] with
    | Except.error e => Except.error e
    | Except.ok (name, childrenRest) =>
      match reduceIndent fuel childrenRest cfg.list_indent_style true with
      | Except.error e => Except.error e
      | Except.ok tokens2 =>
        match blockTreeGo fuel cfg input tokens2 with
        | Except.error e => Except.error e
        | Except.ok tr => Except.ok (ListItem.mk name.dropLast tr)

/-- `Executor::blockquote` (`parser.rs:714-748`). -/
def blockquote : Nat → Parser → List Char → List Token → M (Option (BlockItem × List Token))
  | 0, _, _, _ => Except.error Err.fuel
  | fuel + 1, cfg, input, tokens =>
    match tokens[0]? with
    | none => Except.ok none
    | some t0 =>
      if t0.kind != TokenKind.Gt then Except.ok none
      else
        match quoteLoop fuel cfg input tokens [] with
        | Except.error e => Except.error e
        | Except.ok (indented, rest) =>
          match blockTreeGo fuel cfg input indented with
          | Except.error e => Except.error e
          | Except.ok tr => Except.ok (some (BlockItem.BlockQuote tr, rest))

/-- The line loop of `Executor::blockquote` (`parser.rs:723-743`): strip
the leading `>`; if the remainder looks like a block item, only align it
loosely, else trim its leading spaces; keep the line's `Break`. -/
def quoteLoop : Nat → Parser → List Char → List Token → List Token →
    M (List Token × List Token)
  | 0, _, _, _, _ => Except.error Err.fuel
  | fuel + 1, cfg, input, rest, acc =>
    if rest = [] then Except.ok (acc, rest)
    else
      match rest[0]? with
      | none => Except.error Err.oob
      | some r0 =>
        if r0.kind != TokenKind.Gt then Except.ok (acc, rest)
        else
          let (inp, newRest) := getLine (rest.drop 1) false
          match maybeBlockItem fuel cfg input inp true with
          | Except.error e => Except.error e
          | Except.ok mb =>
            let input2 :=
              if mb then alignIndent inp (IndentStyle.Space 2) IndentRule.Loose
              else trimStart inp TokenKind.Space
            let brk := match rest[1 + inp.length]? with
              | some tk => [tk]
              | none => []
            quoteLoop fuel cfg input newRest (acc ++ input2 ++ brk)

/-- `Executor::maybe_block_item` (`parser.rs:751-793`). -/
def maybeBlockItem : Nat → Parser → List Char → List Token → Bool → M Bool
  | 0, _, _, _, _ => Except.error Err.fuel
  | fuel + 1, cfg, input, tokens, trimArg =>
    let tokens := if trimArg then trimWhiteSpaces tokens else tokens
    match headline fuel cfg input tokens with
    | Except.error e => Except.error e
    | Except.ok (some _) => Except.ok true
    | Except.ok none =>
      match tokens with
      | [] => Except.ok false
      | t0 :: rest1 =>
        if t0.kind == TokenKind.Gt then Except.ok true
        else
          match rest1 with
          | [] => Except.ok false
          | t1 :: rest2 =>
            if t0.kind == TokenKind.Hyphen && t1.kind == TokenKind.Space then Except.ok true
            else
              match rest2 with
              | [] => Except.ok false
              | t2 :: _ =>
                if t0.kind == TokenKind.Text && t1.kind == TokenKind.Dot &&
                    t2.kind == TokenKind.Space &&
                    (sliceBytes input t0.start t0.len).all Char.isDigit then
                  Except.ok true
                else Except.ok false

/-- The scanning loop of `Executor::get_until_maybe_block_item`
(`parser.rs:796-811`): `pos` is the iterator position inside the
`Break`-trimmed view `trimmed`; each found `Break` (at absolute `index`)
is tested; note the direct accesses `tokens[index]` / `tokens[index + 1]`
in the blank-line test. -/
def gumScan : Nat → Parser → List Char → List Token → List Token → Nat →
    M (List Token × List Token)
  | 0, _, _, _, _, _ => Except.error Err.fuel
  | fuel + 1, cfg, input, tokens, trimmed, pos =>
    match (trimmed.drop pos).findIdx? fun t => t.kind == TokenKind.Break with
    | none => Except.ok (tokens, [])
    | some k =>
      let index := pos + k
      match maybeBlockItem fuel cfg input (tokens.drop (index + 1)) false with
      | Except.error e => Except.error e
      | Except.ok mb =>
        if mb then Except.ok (tokens.take index, tokens.drop (index + 1))
        else
          match tokens[index]?, tokens[index + 1]? with
          | some a, some b =>
            if a.kind == TokenKind.Break && b.kind == TokenKind.Break then
              Except.ok (tokens.take index, tokens.drop (index + 2))
            else gumScan fuel cfg input tokens trimmed (index + 1)
          | _, _ => Except.error Err.oob

/-- `Executor::get_until_maybe_block_item` (`parser.rs:796-818`). -/
def gum : Nat → Parser → List Char → List Token → M (List Token × List Token)
  | 0, _, _, _ => Except.error Err.fuel
  | fuel + 1, cfg, input, tokens =>
    match gumScan fuel cfg input tokens (trimEnd tokens TokenKind.Break) 0 with
    | Except.error e => Except.error e
    | Except.ok (front, back) =>
      Except.ok (trimEnd front TokenKind.Break, trimStart back TokenKind.Break)

end

/-- `Parser::parse` (`parser.rs:211-218`, via `Executor::parse` and
`Executor::markdown_tree`): the root block tree of the document. -/
def parse (fuel : Nat) (cfg : Parser) (input : List Char) (tokens : List Token) :
    M (List BlockItem) :=
  blockTreeGo fuel cfg input tokens

/-! ## HTML model (`src/model/html.rs`)

A `DocumentNode` is represented by its root node list. -/

/-- `ElementTag` from `src/model/html.rs`. -/
inductive ElementTag where
  | Div
  | Span
  | P
  | H1
  | H2
  | H3
  | H4
  | H5
  | H6
  | Ul
  | Ol
  | Li
  | Blockquote
  | A
  | Strong
  | Em
  | Br
deriving DecidableEq

/-- `ElementTag::is_block_item` (`html.rs:37-52`). -/
def ElementTag.is_block_item : ElementTag → Bool
  | .Div | .P | .Ul | .Ol | .Li | .H1 | .H2 | .H3 | .H4 | .H5 | .H6 => true
  | _ => false

/-- `ElementTag::headline` (`html.rs:57-67`). -/
def ElementTag.headline : Nat → Option ElementTag
  | 1 => some .H1
  | 2 => some .H2
  | 3 => some .H3
  | 4 => some .H4
  | 5 => some .H5
  | 6 => some .H6
  | _ => none

/-- `ElementTag::get_headline_level` (`html.rs:70-80`). -/
def ElementTag.get_headline_level : ElementTag → Option Nat
  | .H1 => some 1
  | .H2 => some 2
  | .H3 => some 3
  | .H4 => some 4
  | .H5 => some 5
  | .H6 => some 6
  | _ => none

/-- `Node`/`ElementNode`/`TextNode` from `src/model/html.rs`; `cls` stands
for the Rust field `class` (a Lean keyword). -/
inductive HNode where
  | element (tag : ElementTag) (id : List String) (cls : List String) (href : Option String)
      (attrs : List (String × String)) (children : List HNode)
  | text (s : String)

/-- `Node::is_block_item` (`html.rs:92-98`). -/
def HNode.is_block_item : HNode → Bool
  | .element tag _ _ _ _ _ => tag.is_block_item
  | .text _ => false

/-- `get_text` (`html.rs:101-110`): concatenated text content, elements
recursively flattened (joining with `""` is concatenation). -/
def getText : List HNode → String
  | [] => ""
  | HNode.element _ _ _ _ _ ch :: rest => getText ch ++ getText rest
  | HNode.text s :: rest => s ++ getText rest

/-! ## Transformer (`src/layer/transformer.rs`) -/

/-- The `Transformer` configuration (`transformer.rs:5-8`); `sect` is the
Rust field `section`. -/
structure Transformer where
  sect : Bool
deriving DecidableEq

/-- `Transformer::default` (`transformer.rs:11-15`). -/
def Transformer.default : Transformer :=
  ⟨false⟩

/-- An `ElementNode` with all non-children fields defaulted, as produced by
`..Default::default()` in the transformer. -/
def plainElement (tag : ElementTag) (children : List HNode) : HNode :=
  HNode.element tag [] [] none [] children

mutual

/-- `Transformer::block_tree` (`transformer.rs:35-40`). -/
def transformBlockTree (t : Transformer) : List BlockItem → M (List HNode)
  | [] => Except.ok []
  | item :: rest =>
    match transformBlockItem t item with
    | Except.error e => Except.error e
    | Except.ok node =>
      match transformBlockTree t rest with
      | Except.error e => Except.error e
      | Except.ok nodes => Except.ok (node :: nodes)

/-- `Transformer::block_item` (`transformer.rs:42-51`); the `Container` arm
is the source's `todo!()`. -/
def transformBlockItem (t : Transformer) : BlockItem → M HNode
  | BlockItem.Paragraph tree =>
    match transformInlineTree t tree with
    | Except.error e => Except.error e
    | Except.ok ch => Except.ok (plainElement ElementTag.P ch)
  | BlockItem.Headline level tree =>
    match ElementTag.headline level with
    | none => Except.error Err.oob
    | some tag =>
      match transformInlineTree t tree with
      | Except.error e => Except.error e
      | Except.ok ch => Except.ok (plainElement tag ch)
  | BlockItem.BulletList tree =>
    match transformListTree t tree with
    | Except.error e => Except.error e
    | Except.ok ch => Except.ok (plainElement ElementTag.Ul ch)
  | BlockItem.OrderedList tree =>
    match transformListTree t tree with
    | Except.error e => Except.error e
    | Except.ok ch => Except.ok (plainElement ElementTag.Ol ch)
  | BlockItem.BlockQuote tree =>
    match transformBlockTree t tree with
    | Except.error e => Except.error e
    | Except.ok ch => Except.ok (plainElement ElementTag.Blockquote ch)
  | BlockItem.Container _ _ => Except.error Err.todo

/-- `Transformer::list_tree` (`transformer.rs:93-111`): each list item
becomes `<li>` holding its label's inline nodes followed by its child
blocks. -/
def transformListTree (t : Transformer) : List ListItem → M (List HNode)
  | [] => Except.ok []
  | ListItem.mk name children :: rest =>
    match transformInlineTree t name with
    | Except.error e => Except.error e
    | Except.ok nameNodes =>
      match transformBlockTree t children with
      | Except.error e => Except.error e
      | Except.ok childNodes =>
        match transformListTree t rest with
        | Except.error e => Except.error e
        | Except.ok nodes =>
          Except.ok (plainElement ElementTag.Li (nameNodes ++ childNodes) :: nodes)

/-- `Transformer::inline_tree` (`transformer.rs:113-118`). -/
def transformInlineTree (t : Transformer) : List InlineItem → M (List HNode)
  | [] => Except.ok []
  | item :: rest =>
    match transformInlineItem t item with
    | Except.error e => Except.error e
    | Except.ok node =>
      match transformInlineTree t rest with
      | Except.error e => Except.error e
      | Except.ok nodes => Except.ok (node :: nodes)

/-- `Transformer::inline_item` (`transformer.rs:120-127`) together with the
`text`/`italic`/`strong`/`break` constructors (`transformer.rs:129-154`). -/
def transformInlineItem (t : Transformer) : InlineItem → M HNode
  | InlineItem.Text s => Except.ok (HNode.text s.asString)
  | InlineItem.Italic tree =>
    match transformInlineTree t tree with
    | Except.error e => Except.error e
    | Except.ok ch => Except.ok (plainElement ElementTag.Em ch)
  | InlineItem.Strong tree =>
    match transformInlineTree t tree with
    | Except.error e => Except.error e
    | Except.ok ch => Except.ok (plainElement ElementTag.Strong ch)
  | InlineItem.Break => Except.ok (plainElement ElementTag.Br [])

end

/-- `Transformer::transform` (`transformer.rs:29-33`). -/
def transform (t : Transformer) (tree : List BlockItem) : M (List HNode) :=
  transformBlockTree t tree

/-! ## Stringifier (`src/layer/stringifier.rs`) -/

/-- The `Stringifier` configuration (`stringifier.rs`); `width` is the Rust
`u32` field. -/
structure Stringifier where
  format : Bool
  width : Nat
deriving DecidableEq

/-- `Stringifier::default`. -/
def Stringifier.default : Stringifier :=
  ⟨false, 20⟩

/-- `tag_to_str` (`stringifier.rs`). -/
def tagToStr : ElementTag → String
  | .Div => "div"
  | .Span => "span"
  | .P => "p"
  | .H1 => "h1"
  | .H2 => "h2"
  | .H3 => "h3"
  | .H4 => "h4"
  | .H5 => "h5"
  | .H6 => "h6"
  | .Ul => "ul"
  | .Ol => "ol"
  | .Li => "li"
  | .Blockquote => "blockquote"
  | .A => "a"
  | .Strong => "strong"
  | .Em => "em"
  | .Br => "br"

/-- Rust `str::lines`: split on `'\n'`, drop one trailing empty piece, and
strip a trailing `'\r'` from every piece. -/
def rustLines (s : String) : List String :=
  let pieces := s.split fun c => c = '\n'
  let pieces := if pieces.getLast? = some "" then pieces.dropLast else pieces
  pieces.map fun p => if p.endsWith "\r" then p.dropRight 1 else p

/-- `Stringifier::add_indent`. -/
def addIndent (input : String) : String :=
  String.intercalate "\n" ((rustLines input).map fun line => "    " ++ line)

/-- The attribute string assembled by `stringify_element`: `class`, `id`,
`href`, then the free-form attributes. -/
def attrString (id cls : List String) (href : Option String) (attrs : List (String × String)) :
    String :=
  (if cls ≠ [] then " class=\"" ++ String.intercalate " " cls ++ "\"" else "") ++
  (if id ≠ [] then " id=\"" ++ String.intercalate " " id ++ "\"" else "") ++
  (match href with
   | some h => " href=\"" ++ h ++ "\""
   | none => "") ++
  String.join (attrs.map fun p => " " ++ p.1 ++ "=\"" ++ p.2 ++ "\"")

mutual

/-- `Stringifier::stringify_node`. -/
def stringifyNode (s : Stringifier) : HNode → String
  | HNode.text txt => txt
  | HNode.element tag id cls href attrs children =>
    if tag = ElementTag.Br then "<" ++ tagToStr tag ++ ">"
    else
      let a := attrString id cls href attrs
      let list := stringifyList s children
      let tg := tagToStr tag
      if s.format then
        if children.length = 1 then
          let child := list.headD ""
          if s.width ≤ child.utf8ByteSize then
            "<" ++ tg ++ a ++ ">\n" ++ addIndent child ++ "\n</" ++ tg ++ ">"
          else
            "<" ++ tg ++ a ++ ">" ++ child ++ "</" ++ tg ++ ">"
        else if !(children.any HNode.is_block_item) then
          "<" ++ tg ++ a ++ ">" ++ String.join list ++ "</" ++ tg ++ ">"
        else
          "<" ++ tg ++ a ++ ">\n" ++ addIndent (String.intercalate "\n" list) ++ "\n</" ++ tg ++ ">"
      else
        "<" ++ tg ++ a ++ ">" ++ String.join list ++ "</" ++ tg ++ ">"

/-- The per-child stringification (the `children.iter().map(...)` part of
`stringify_element`). -/
def stringifyList (s : Stringifier) : List HNode → List String
  | [] => []
  | n :: rest => stringifyNode s n :: stringifyList s rest

end

/-- `Stringifier::stringify`. -/
def stringify (s : Stringifier) (doc : List HNode) : String :=
  let list := stringifyList s doc
  if s.format then String.intercalate "\n" list else String.join list

/-! ## Table of contents builder (`src/layer/toc.rs`) -/

/-- `ListType` (`toc.rs:15-18`). -/
inductive ListType where
  | Unordered
  | Ordered
deriving DecidableEq

/-- `ListType::to_tag` (`toc.rs:21-26`). -/
def ListType.to_tag : ListType → ElementTag
  | .Unordered => ElementTag.Ul
  | .Ordered => ElementTag.Ol

/-- The `MakeToc` configuration (`toc.rs:7-10`); `lib.rs` refers to the
same component as `TocMaker`. -/
structure MakeToc where
  level : Nat
  list_type : ListType

/-- `MakeToc::default` (`toc.rs:30-37`). -/
def MakeToc.default : MakeToc :=
  ⟨3, ListType.Unordered⟩

/-- The `<a href="#id">text</a>` node built by `MakeToc::nest` for the
entry `(level, text, id)` (`toc.rs:113-122`, `toc.rs:127-134`,
`toc.rs:155-162`). -/
def anchorNode (entry : Nat × String × String) : HNode :=
  HNode.element ElementTag.A [] [] (some ("#" ++ entry.2.2)) [] [HNode.text entry.2.1]

/-- The `<li>` node of the general branches of `MakeToc::nest`: the anchor,
followed by a nested list only when the recursively built interior is
non-empty (`toc.rs:124-149`, `toc.rs:152-176`). -/
def liNode (cfg : MakeToc) (entry : Nat × String × String) (output : List HNode) : HNode :=
  HNode.element ElementTag.Li [] [] none []
    (anchorNode entry ::
      (if output.isEmpty then [] else [HNode.element cfg.list_type.to_tag [] [] none [] output]))

/-- `MakeToc::nest` (`toc.rs:100-183`): `index` is the position, within
`rest[1..]`, of the first entry whose level is `≤` the current entry's
level (the boundary sits at `rest[index + 1]`).  Note the source's special
`index == 1` arm (`toc.rs:111-123`), which emits the current entry with
*no* children and resumes at the boundary, so the single interior entry
`rest[1]` is never emitted. -/
def nest (cfg : MakeToc) : List (Nat × String × String) → List HNode
  | [] => []
  | r0 :: rtail =>
    match rtail.findIdx? fun e => e.1 ≤ r0.1 with
    | some index =>
      if index = 1 then
        HNode.element ElementTag.Li [] [] none [] [anchorNode r0] ::
          nest cfg ((r0 :: rtail).drop (index + 1))
      else
        liNode cfg r0 (nest cfg (rtail.take index)) :: nest cfg ((r0 :: rtail).drop (index + 1))
    | none => [liNode cfg r0 (nest cfg rtail)]
termination_by rest => rest.length
decreasing_by
  · simp only [List.length_drop, List.length_cons]
    omega
  · simp only [List.length_take, List.length_cons]
    omega
  · simp only [List.length_drop, List.length_cons]
    omega
  · simp

/-! ## `Nat.repr` is injective

`MakeToc::make_toc` deduplicates anchor ids with an unbounded search
`text + index.to_string()`, `index = 1, 2, 3, …`.  Its Lean rendering
(`allocId` below) uses `Nat.find`, which needs the search to provably
succeed; that in turn needs decimal rendering of distinct numbers to give
distinct strings.  Core and Mathlib do not provide this, so it is proved
here by evaluating the digit string back to the number. -/

/-- Value of a decimal digit character. -/
def digitVal (c : Char) : Nat :=
  c.toNat - 48

/-- Value of a big-endian decimal digit string. -/
def digitsVal (l : List Char) : Nat :=
  l.foldl (fun acc c => acc * 10 + digitVal c) 0

theorem digitVal_digitChar : ∀ d : Nat, d < 10 → digitVal (Nat.digitChar d) = d := by
  decide

theorem toDigitsCore_append (fuel : Nat) :
    ∀ (n : Nat) (ds : List Char),
      Nat.toDigitsCore 10 fuel n ds = Nat.toDigitsCore 10 fuel n [] ++ ds := by
  induction fuel with
  | zero => intro n ds; simp [Nat.toDigitsCore]
  | succ fuel ih =>
    intro n ds
    simp only [Nat.toDigitsCore]
    by_cases h : n / 10 = 0
    · simp [h]
    · simp only [h, if_false]
      rw [ih (n / 10) [Nat.digitChar (n % 10)], ih (n / 10) (Nat.digitChar (n % 10) :: ds)]
      simp

theorem digitsVal_toDigitsCore :
    ∀ (n : Nat), ∀ (fuel : Nat), n < fuel → digitsVal (Nat.toDigitsCore 10 fuel n []) = n := by
  intro n
  induction n using Nat.strong_induction_on with
  | _ n ih =>
    intro fuel hfuel
    match fuel with
    | fuel + 1 =>
      simp only [Nat.toDigitsCore]
      by_cases h : n / 10 = 0
      · have hn : n < 10 := by omega
        simp only [h, if_true, digitsVal, List.foldl, Nat.zero_mul, Nat.zero_add]
        rw [digitVal_digitChar (n % 10) (Nat.mod_lt n (by omega))]
        omega
      · have h10 : 10 ≤ n := by
          by_contra hc
          exact h (Nat.div_eq_of_lt (by omega))
        simp only [h, if_false]
        rw [toDigitsCore_append fuel (n / 10) [Nat.digitChar (n % 10)]]
        have hlt : n / 10 < n := Nat.div_lt_self (by omega) (by omega)
        have hfu : n / 10 < fuel := by omega
        simp only [digitsVal] at ih ⊢
        rw [List.foldl_append, ih (n / 10) hlt fuel hfu]
        simp only [List.foldl]
        rw [digitVal_digitChar (n % 10) (Nat.mod_lt n (by omega))]
        omega

theorem natRepr_injective : Function.Injective Nat.repr := by
  intro a b hab
  have h1 : Nat.toDigits 10 a = Nat.toDigits 10 b := by
    have := congrArg String.data hab
    simpa [Nat.repr, List.asString] using this
  have h2 : digitsVal (Nat.toDigitsCore 10 (a + 1) a []) =
      digitsVal (Nat.toDigitsCore 10 (b + 1) b []) := by
    simp [Nat.toDigits] at h1
    rw [h1]
  rwa [digitsVal_toDigitsCore a (a + 1) (by omega),
    digitsVal_toDigitsCore b (b + 1) (by omega)] at h2

/-- Appending distinct decimal suffixes to a fixed prefix gives distinct
strings. -/
theorem append_repr_injective (text : String) :
    Function.Injective fun k : Nat => text ++ Nat.repr k := by
  intro a b hab
  apply natRepr_injective
  apply String.ext
  have := congrArg String.data hab
  simp only [String.data_append] at this
  exact List.append_cancel_left this

/-- The unbounded suffix search of `MakeToc::make_toc` (`toc.rs:71-79`)
always terminates: some positive suffix is fresh for any finite set of
already-used ids. -/
theorem allocFresh (set : List String) (text : String) :
    ∃ k : Nat, 0 < k ∧ ¬(text ++ toString k) ∈ set := by
  by_contra hcon
  push_neg at hcon
  have hall : ∀ k : Nat, 0 < k → (text ++ Nat.repr k) ∈ set.toFinset := by
    intro k hk
    simpa using hcon k hk
  have hsub : (Finset.Icc 1 (set.toFinset.card + 1)).image (fun k => text ++ Nat.repr k) ⊆
      set.toFinset := by
    intro x hx
    simp only [Finset.mem_image, Finset.mem_Icc] at hx
    obtain ⟨k, ⟨hk1, _⟩, rfl⟩ := hx
    exact hall k hk1
  have hcard := Finset.card_le_card hsub
  rw [Finset.card_image_of_injective _ (append_repr_injective text)] at hcard
  simp [Nat.card_Icc] at hcard

/-! ## Anchor-id allocation and the heading scan of `MakeToc::make_toc`
(`toc.rs:47-98`) -/

/-- The id-allocation step of `MakeToc::make_toc` (`toc.rs:68-82`): a text
not yet in the used set becomes its own id; otherwise the smallest
positive integer suffix giving an unused string is appended
(`index = 1, 2, 3, …` in order — `Nat.find` returns the least witness).
Returns the id and the updated used set. -/
def allocId (set : List String) (text : String) : String × List String :=
  if text ∈ set then
    let k := Nat.find (allocFresh set text)
    (text ++ toString k, (text ++ toString k) :: set)
  else
    (text, text :: set)

/-- The heading loop of `MakeToc::make_toc` (`toc.rs:52-87`): walk the root
nodes; each `H1`–`H6` element whose level is within `cfg.level` gets an id
pushed onto its `id` attribute and is recorded as `(level, text, id)`;
everything else passes through untouched.  Returns the mutated node list,
the final used-id set and the recorded entries. -/
def makeTocScan (cfg : MakeToc) :
    List HNode → List String → List (Nat × String × String) →
    List HNode × List String × List (Nat × String × String)
  | [], set, list => ([], set, list)
  | HNode.text s :: rest, set, list =>
    let r := makeTocScan cfg rest set list
    (HNode.text s :: r.1, r.2)
  | HNode.element tag id cls href attrs children :: rest, set, list =>
    match tag.get_headline_level with
    | none =>
      let r := makeTocScan cfg rest set list
      (HNode.element tag id cls href attrs children :: r.1, r.2)
    | some lvl =>
      if cfg.level < lvl then
        let r := makeTocScan cfg rest set list
        (HNode.element tag id cls href attrs children :: r.1, r.2)
      else
        let text := getText children
        let idSet := allocId set text
        let r := makeTocScan cfg rest idSet.2 (list ++ [(lvl, text, idSet.1)])
        (HNode.element tag (id ++ [idSet.1]) cls href attrs children :: r.1, r.2)

/-- `MakeToc::make_toc` (`toc.rs:47-98`): scan the document's root nodes,
then nest the recorded entries under one list element.  Returns the
mutated document and the TOC document. -/
def makeToc (cfg : MakeToc) (input : List HNode) : List HNode × List HNode :=
  let (input', _, list) := makeTocScan cfg input [] []
  (input', [HNode.element cfg.list_type.to_tag [] [] none [] (nest cfg list)])

/-- The `(level, text, id)` entries recorded by one TOC build over a
document. -/
def tocEntries (cfg : MakeToc) (nodes : List HNode) : List (Nat × String × String) :=
  (makeTocScan cfg nodes [] []).2.2

/-- The anchor ids allocated by one TOC build, in document order. -/
def tocIds (cfg : MakeToc) (nodes : List HNode) : List String :=
  (tocEntries cfg nodes).map fun e => e.2.2

/-- A bare heading element of the given level holding the given text, as
the transformer produces for `Headline(level, text)`. -/
def headingNode (lvl : Nat) (txt : String) : HNode :=
  HNode.element ((ElementTag.headline lvl).getD ElementTag.H1) [] [] none [] [HNode.text txt]

/-! ## The `Markdown` front end (`src/lib.rs`) -/

/-- The `Markdown` struct (`lib.rs:42-51`): the per-call configuration
bundle. -/
structure Markdown where
  parser : Parser
  transformer : Transformer
  stringifier : Stringifier
  toc_maker : MakeToc

/-- `Markdown::default`. -/
def Markdown.default : Markdown :=
  ⟨Parser.default, Transformer.default, Stringifier.default, MakeToc.default⟩

/-- `Markdown::execute` (`lib.rs:86-91`): lex, parse, transform,
stringify.  `fuel` is the step budget of the embedded parser. -/
def Markdown.execute (m : Markdown) (fuel : Nat) (input : List Char) : M String :=
  let tokens := lex input
  match parse fuel m.parser input tokens with
  | Except.error e => Except.error e
  | Except.ok tree =>
    match transform m.transformer tree with
    | Except.error e => Except.error e
    | Except.ok doc => Except.ok (stringify m.stringifier doc)

/-- `Markdown::execute` with the configuration value threaded through the
call, mirroring the Rust signature `fn execute(&self, input: &str)`: the
call receives the configuration by shared reference and hands it back
untouched. -/
def Markdown.executeST (m : Markdown) (fuel : Nat) (input : List Char) : M String × Markdown :=
  (m.execute fuel input, m)

/-! ## Claim C1: the block loop does not terminate on `"- "` -/

/-- On the token sequence of `"- "` the bullet-list production succeeds
with an empty item list while consuming nothing, so the block loop spins:
for every step budget the embedded loop exhausts it.  Stated on the
explicit character list; `c1_parse_diverges` restates it for the string
pipeline. -/
theorem blockTreeGo_dash (fuel : Nat) :
    blockTreeGo fuel Parser.default ['-', ' ']
      [⟨TokenKind.Hyphen, 0, 1⟩, ⟨TokenKind.Space, 1, 1⟩] = Except.error Err.fuel := by
  induction fuel using Nat.strong_induction_on with
  | _ fuel ih =>
    match fuel with
    | 0 => rfl
    | 1 => rfl
    | 2 => rfl
    | 3 => rfl
    | 4 => rfl
    | 5 => rfl
    | 6 => rfl
    | (m + 7) =>
      have hrec := ih (m + 6) (by omega)
      have hp1 : Parser.default.list_indent_rule = IndentRule.Strict := rfl
      have hp2 : Parser.default.list_indent_style = IndentStyle.Space 2 := rfl
      have hp3 : Parser.default.headline_ending = HeadlineEnding.HardBreak := rfl
      have h1 : gum (m + 3) Parser.default ['-', ' '] [] = Except.ok ([], []) := by
        simp [gum, gumScan, trimEnd, trimStart]
      have h2 : bulletLoop (m + 4) Parser.default ['-', ' ']
          [⟨TokenKind.Hyphen, 0, 1⟩, ⟨TokenKind.Space, 1, 1⟩] [] =
          Except.ok (some ([], [⟨TokenKind.Hyphen, 0, 1⟩, ⟨TokenKind.Space, 1, 1⟩])) := by
        simp [bulletLoop, alignIndent, hp1, hp2, h1]
      have h3 : bulletList (m + 5) Parser.default ['-', ' ']
          [⟨TokenKind.Hyphen, 0, 1⟩, ⟨TokenKind.Space, 1, 1⟩] =
          Except.ok (some (BlockItem.BulletList [],
            [⟨TokenKind.Hyphen, 0, 1⟩, ⟨TokenKind.Space, 1, 1⟩])) := by
        simp [bulletList, alignIndent, hp1, hp2, h2]
      have h4 : headline (m + 5) Parser.default ['-', ' ']
          [⟨TokenKind.Hyphen, 0, 1⟩, ⟨TokenKind.Space, 1, 1⟩] = Except.ok none := by
        simp [headline, trimWhiteSpaces, trimWhiteSpacesGo, trimStart, headlineLevel,
          headlineLevelGo, hp3]
      have h5 : notParagraph (m + 6) Parser.default ['-', ' ']
          [⟨TokenKind.Hyphen, 0, 1⟩, ⟨TokenKind.Space, 1, 1⟩] =
          Except.ok (some (BlockItem.BulletList [],
            [⟨TokenKind.Hyphen, 0, 1⟩, ⟨TokenKind.Space, 1, 1⟩])) := by
        simp [notParagraph, h3, h4]
      rw [blockTreeGo.eq_def]
      simp only [h5, hrec]
      simp

/-- C1.  The claim says parsing runs to completion on every input.  It does
not: on the two-token input `"- "` (`Hyphen`, `Space`) the bullet-list
production returns an empty list while consuming no tokens
(`parser.rs:592-614`: the first item body is empty, so the item loop
breaks before ever advancing `rest`), and the top-level block loop
(`parser.rs:478-486`) then repeats forever on the unchanged remainder.
In the embedding: the parse errs with `Err.fuel` for *every* step budget,
i.e. no finite number of steps completes the call. -/
theorem c1_parse_diverges (fuel : Nat) :
    parse fuel Parser.default "- ".toList (lex "- ".toList) = Except.error Err.fuel := by
  have hlex : lex "- ".toList = [⟨TokenKind.Hyphen, 0, 1⟩, ⟨TokenKind.Space, 1, 1⟩] := by
    have h : rawLex "- ".toList = [⟨TokenKind.Hyphen, 0, 1⟩, ⟨TokenKind.Space, 1, 1⟩] := by
      decide
    simp only [lex]
    rw [h]
    simp [textJoiner, spaceCutter, spaceCutterTrigger, cutsRun, isSpaceTab]
  rw [hlex, show "- ".toList = ['-', ' '] from rfl]
  exact blockTreeGo_dash fuel

/-! ## Claim C3: the TOC nesting drops an interior entry -/

/-- C3.  The claim says every input entry appears exactly once in the
output, and that a single deeper heading between two shallower ones
becomes a child of the first.  The code's `index == 1` arm
(`toc.rs:111-123`) contradicts this: for entries
`[(1,A),(2,X),(1,B)]` it emits `A` childless, skips directly to the
boundary `B`, and the interior entry `X` is never emitted — the flattened
text of the produced TOC is `"AB"`. -/
theorem c3_nest_drops_entry :
    nest MakeToc.default [(1, "A", "A"), (2, "X", "X"), (1, "B", "B")] =
      [HNode.element ElementTag.Li [] [] none [] [anchorNode (1, "A", "A")],
       liNode MakeToc.default (1, "B", "B") []] ∧
    getText (nest MakeToc.default [(1, "A", "A"), (2, "X", "X"), (1, "B", "B")]) = "AB" := by
  have h : nest MakeToc.default [(1, "A", "A"), (2, "X", "X"), (1, "B", "B")] =
      [HNode.element ElementTag.Li [] [] none [] [anchorNode (1, "A", "A")],
       liNode MakeToc.default (1, "B", "B") []] := by
    simp [nest]
  refine ⟨h, ?_⟩
  rw [h]
  simp [getText, anchorNode, liNode]

/-! ## Claim C5: headline parsing on a multi-byte body -/

/-- C5.  The claim says every punctuation-free single-line body yields
`Headline(n, body)`.  For the body `"あa"` it does not: the lexer's
byte-cursor/character-skip confusion (see C2) drops the trailing `a`, and
`"# あa"` parses to `Headline(1, "あ")` instead of `Headline(1, "あa")`.
(For seven pound signs the headline production does fail and the input
falls back to a paragraph; the failure here is only the lexer slip.) -/
theorem c5_headline_multibyte_bug :
    parse 9 Parser.default "# あa".toList (lex "# あa".toList) =
      Except.ok [BlockItem.Headline 1 [InlineItem.Text ['あ']]] ∧
    (['あ'] : List Char) ≠ "あa".toList := by
  constructor
  · have h : rawLex "# あa".toList =
        [⟨TokenKind.Pound, 0, 1⟩, ⟨TokenKind.Space, 1, 1⟩, ⟨TokenKind.Text, 2, 3⟩] := by
      decide
    have hlex : lex "# あa".toList =
        [⟨TokenKind.Pound, 0, 1⟩, ⟨TokenKind.Space, 1, 1⟩, ⟨TokenKind.Text, 2, 3⟩] := by
      simp only [lex]
      rw [h]
      simp [textJoiner, spaceCutter, spaceCutterTrigger, cutsRun, isSpaceTab]
    rw [hlex]
    rfl
  · decide

/-! ## Claim C9: a reachable out-of-bounds slice in `strong` -/

/-- C9.  The claim says every slice index during inline parsing is in
bounds.  It is not: on three stars the `strong` production finds its
closing pair at window index 1 and slices `&tokens[2..1]`
(`parser.rs:884`), a panicking range — the embedding's out-of-bounds
branch is reached.  (The guards the claim cites do hold — the inline-tree
loop only calls the productions on non-empty slices — but this slice is
unguarded.) -/
theorem c9_strong_oob :
    inlineTree 9 "***".toList (lex "***".toList) = Except.error Err.oob := by
  have h : rawLex "***".toList =
      [⟨TokenKind.Star, 0, 1⟩, ⟨TokenKind.Star, 1, 1⟩, ⟨TokenKind.Star, 2, 1⟩] := by decide
  have hlex : lex "***".toList =
      [⟨TokenKind.Star, 0, 1⟩, ⟨TokenKind.Star, 1, 1⟩, ⟨TokenKind.Star, 2, 1⟩] := by
    simp only [lex]
    rw [h]
    simp [textJoiner, spaceCutter, spaceCutterTrigger, cutsRun, isSpaceTab]
  rw [hlex]
  rfl

/-! ## Claim C10: `execute` is deterministic and leaves the configuration
unchanged -/

/-- C10.  Two runs of `execute` on equal inputs and equal configuration
values produce equal results, and the configuration value comes back from
the call unchanged.  The embedded pipeline is a pure function of
`(configuration, input, step budget)` — the Rust call is single-threaded,
does no I/O, and takes `&self` with no interior mutability, which the
embedding renders by passing the configuration as a value
(`Markdown.executeST` hands it back). -/
theorem c10_execute_deterministic (m₁ m₂ : Markdown) (input₁ input₂ : List Char) (fuel : Nat)
    (hm : m₁ = m₂) (hi : input₁ = input₂) :
    (m₁.executeST fuel input₁).1 = (m₂.executeST fuel input₂).1 ∧
    (m₁.executeST fuel input₁).2 = m₁ := by
  subst hm
  subst hi
  exact ⟨rfl, rfl⟩

/-- Witness for C10 at a concrete run (the `lib.rs` doc example input). -/
theorem c10_execute_deterministic_witness :
    (Markdown.default.executeST 50 "# Hello, world!".toList).1 =
      (Markdown.default.executeST 50 "# Hello, world!".toList).1 ∧
    (Markdown.default.executeST 50 "# Hello, world!".toList).2 = Markdown.default :=
  c10_execute_deterministic Markdown.default Markdown.default
    "# Hello, world!".toList "# Hello, world!".toList 50 rfl rfl

/-- Witness for C6: the escape theorem applied at `c = '#'` and at a
non-escapable follower. -/
theorem c6_escape_fidelity_witness :
    rawLex ['\\', '#'] = [⟨TokenKind.Text, 1, 1⟩] ∧
    (rawLex ('\\' :: ['a'])).head? = some ⟨TokenKind.Text, 0, 1⟩ :=
  ⟨c6_escape_fidelity.1 '#' (by decide), c6_escape_fidelity.2 ['a'] (by decide)⟩

/-! ## Claim C4: anchor-id deduplication -/

/-- The smallest positive integer suffix `k` such that `text ++ toString k`
is not among the already-used ids — the value the suffix loop of
`MakeToc::make_toc` (`toc.rs:71-79`) settles on, since it tries
`1, 2, 3, …` in order. -/
def smallestFreshSuffix (used : List String) (text : String) : Nat :=
  Nat.find (allocFresh used text)

/-- `Nat.find` only depends on the predicate's extension. -/
theorem find_congr {p q : Nat → Prop} [DecidablePred p] [DecidablePred q]
    (hpq : ∀ n, p n ↔ q n) (hp : ∃ n, p n) (hq : ∃ n, q n) :
    Nat.find hp = Nat.find hq := by
  apply le_antisymm
  · exact Nat.find_min' hp ((hpq _).mpr (Nat.find_spec hq))
  · exact Nat.find_min' hq ((hpq _).mp (Nat.find_spec hp))

/-- The projection of the heading loop of `MakeToc::make_toc` onto
`(level, text)` pairs: the id each heading receives, with the used set
threaded through in document order. -/
def entriesFold (set : List String) : List (Nat × String) → List (Nat × String × String)
  | [] => []
  | (l, t) :: rest => (l, t, (allocId set t).1) :: entriesFold (allocId set t).2 rest

/-- The ids allocated by the fold, in order. -/
def idsFold (set : List String) (hs : List (Nat × String)) : List String :=
  (entriesFold set hs).map fun e => e.2.2

theorem allocId_snd (set : List String) (text : String) :
    (allocId set text).2 = (allocId set text).1 :: set := by
  by_cases h : text ∈ set <;> simp [allocId, h]

/-- When the text itself is still fresh, `allocId` hands it out verbatim. -/
theorem allocId_not_mem (set : List String) (text : String) (h : text ∉ set) :
    allocId set text = (text, text :: set) := by
  simp [allocId, h]

/-- When already suffix 1 is fresh, the search stops at 1. -/
theorem find_allocFresh_one (set : List String) (text : String)
    (h : ¬(text ++ toString 1) ∈ set) : Nat.find (allocFresh set text) = 1 := by
  rw [Nat.find_eq_iff]
  refine ⟨⟨Nat.one_pos, h⟩, ?_⟩
  intro n hn hcon
  exact absurd hcon.1 (by omega)

/-- When the text is taken but its suffix-1 variant is fresh, `allocId`
hands out the suffix-1 variant. -/
theorem allocId_mem_one (set : List String) (text : String) (hmem : text ∈ set)
    (hfresh : ¬(text ++ toString 1) ∈ set) :
    allocId set text = (text ++ toString 1, (text ++ toString 1) :: set) := by
  have h := find_allocFresh_one set text hfresh
  simp only [allocId, h, if_pos hmem]

theorem allocId_fst_not_mem (set : List String) (text : String) :
    (allocId set text).1 ∉ set := by
  by_cases h : text ∈ set
  · simp only [allocId, h, if_true]
    exact (Nat.find_spec (allocFresh set text)).2
  · simp [allocId, h]

theorem headline_getD_level (lvl : Nat) (h1 : 1 ≤ lvl) (h6 : lvl ≤ 6) :
    ((ElementTag.headline lvl).getD ElementTag.H1).get_headline_level = some lvl := by
  interval_cases lvl <;> rfl

/-- One step of the heading loop on a bare heading element of in-range
level. -/
theorem makeTocScan_heading_cons (cfg : MakeToc) (l : Nat) (t : String) (rest : List HNode)
    (set : List String) (acc : List (Nat × String × String))
    (h1 : 1 ≤ l) (h6 : l ≤ 6) (hcl : l ≤ cfg.level) :
    makeTocScan cfg (headingNode l t :: rest) set acc =
      (HNode.element ((ElementTag.headline l).getD ElementTag.H1) [(allocId set t).1] [] none []
          [HNode.text t] ::
        (makeTocScan cfg rest (allocId set t).2 (acc ++ [(l, t, (allocId set t).1)])).1,
       (makeTocScan cfg rest (allocId set t).2 (acc ++ [(l, t, (allocId set t).1)])).2) := by
  have htext : getText [HNode.text t] = t := by simp [getText]
  simp only [headingNode, makeTocScan, headline_getD_level l h1 h6,
    if_neg (by omega : ¬cfg.level < l), htext]
  simp

/-- The heading loop of `MakeToc::make_toc`, run on bare heading elements
whose levels are all within range, records exactly the entries of the
`(level, text)` fold. -/
theorem makeTocScan_headingNodes (cfg : MakeToc) :
    ∀ (hs : List (Nat × String)) (set : List String) (acc : List (Nat × String × String)),
      (∀ p ∈ hs, 1 ≤ p.1 ∧ p.1 ≤ 6 ∧ p.1 ≤ cfg.level) →
      (makeTocScan cfg (hs.map fun p => headingNode p.1 p.2) set acc).2.2 =
        acc ++ entriesFold set hs := by
  intro hs
  induction hs with
  | nil =>
    intro set acc _
    simp [makeTocScan, entriesFold]
  | cons p rest ih =>
    intro set acc hlv
    obtain ⟨l, t⟩ := p
    obtain ⟨h1, h6, hcl⟩ := hlv (l, t) (by simp)
    rw [List.map_cons, makeTocScan_heading_cons cfg l t _ set acc h1 h6 hcl]
    simp only []
    rw [ih (allocId set t).2 (acc ++ [(l, t, (allocId set t).1)])
      (fun q hq => hlv q (by simp [hq]))]
    simp [entriesFold]

theorem idsFold_nil (set : List String) : idsFold set [] = [] := by
  simp [idsFold, entriesFold]

theorem idsFold_cons (set : List String) (l : Nat) (t : String) (rest : List (Nat × String)) :
    idsFold set ((l, t) :: rest) = (allocId set t).1 :: idsFold (allocId set t).2 rest := by
  simp [idsFold, entriesFold]

theorem idsFold_length (hs : List (Nat × String)) :
    ∀ set, (idsFold set hs).length = hs.length := by
  induction hs with
  | nil => intro set; simp [idsFold_nil]
  | cons p rest ih =>
    intro set
    obtain ⟨l, t⟩ := p
    simp [idsFold_cons, ih]

/-- Ids allocated later never collide with anything already in the used
set. -/
theorem idsFold_not_mem_of_mem (hs : List (Nat × String)) :
    ∀ (set : List String) (x : String), x ∈ set → x ∉ idsFold set hs := by
  induction hs with
  | nil => intro set x _; simp [idsFold_nil]
  | cons p rest ih =>
    intro set x hx
    obtain ⟨l, t⟩ := p
    rw [idsFold_cons]
    intro hmem
    rcases List.mem_cons.mp hmem with heq | htail
    · exact allocId_fst_not_mem set t (heq ▸ hx)
    · exact ih (allocId set t).2 x (by rw [allocId_snd]; exact List.mem_cons_of_mem _ hx) htail

/-- All ids allocated in one build are pairwise distinct. -/
theorem idsFold_nodup (hs : List (Nat × String)) :
    ∀ set, (idsFold set hs).Nodup := by
  induction hs with
  | nil => intro set; simp [idsFold_nil]
  | cons p rest ih =>
    intro set
    obtain ⟨l, t⟩ := p
    rw [idsFold_cons]
    refine List.nodup_cons.mpr ⟨?_, ih _⟩
    exact idsFold_not_mem_of_mem rest (allocId set t).2 (allocId set t).1
      (by rw [allocId_snd]; exact List.mem_cons_self _ _)

/-- The `j`-th allocated id is exactly what `allocId` yields against the
previously allocated ids (on top of the initial used set). -/
theorem idsFold_getD (hs : List (Nat × String)) :
    ∀ (set : List String) (j : Nat), j < hs.length →
      (idsFold set hs).getD j "" =
        (allocId (((idsFold set hs).take j).reverse ++ set) ((hs.getD j (0, "")).2)).1 := by
  induction hs with
  | nil => intro set j hj; simp at hj
  | cons p rest ih =>
    intro set j hj
    obtain ⟨l, t⟩ := p
    rw [idsFold_cons]
    match j with
    | 0 => simp
    | j + 1 =>
      have hj' : j < rest.length := by simpa using hj
      rw [allocId_snd]
      simpa [List.take_succ_cons, List.reverse_cons, List.append_assoc] using
        ih ((allocId set t).1 :: set) j hj'

end NoteMark

namespace NoteMark

/-- C4 (amended).  Within one TOC build over headings of levels 1–3 (all
within the default depth), processing in document order: a heading whose
text is not yet allocated *as an id* receives the text itself; a heading
whose text is already an allocated id receives the text with the smallest
positive integer suffix (trying 1, 2, 3, … in order) not yet allocated;
and all ids of one build are pairwise distinct.  (The original claim keyed
the first two cases on earlier *texts*; the code keys them on earlier
*ids* — see the counterexample `c4_first_text_counterexample`.) -/
theorem c4_toc_anchor_ids (hs : List (Nat × String))
    (hlv : ∀ p ∈ hs, 1 ≤ p.1 ∧ p.1 ≤ 3) :
    (tocIds MakeToc.default (hs.map fun p => headingNode p.1 p.2)).Nodup ∧
    (tocIds MakeToc.default (hs.map fun p => headingNode p.1 p.2)).length = hs.length ∧
    (∀ j, j < hs.length →
      (tocIds MakeToc.default (hs.map fun p => headingNode p.1 p.2)).getD j "" =
        (if (hs.getD j (0, "")).2 ∈
            (tocIds MakeToc.default (hs.map fun p => headingNode p.1 p.2)).take j then
          (hs.getD j (0, "")).2 ++
            toString (smallestFreshSuffix
              ((tocIds MakeToc.default (hs.map fun p => headingNode p.1 p.2)).take j)
              ((hs.getD j (0, "")).2))
        else (hs.getD j (0, "")).2)) := by
  have hlv' : ∀ p ∈ hs, 1 ≤ p.1 ∧ p.1 ≤ 6 ∧ p.1 ≤ MakeToc.default.level := by
    intro p hp
    obtain ⟨a, b⟩ := hlv p hp
    exact ⟨a, by omega, by simpa [MakeToc.default] using b⟩
  have hids : tocIds MakeToc.default (hs.map fun p => headingNode p.1 p.2) = idsFold [] hs := by
    simp only [tocIds, tocEntries, makeTocScan_headingNodes MakeToc.default hs [] [] hlv',
      List.nil_append, idsFold]
  rw [hids]
  refine ⟨idsFold_nodup hs [], idsFold_length hs [], ?_⟩
  intro j hj
  rw [idsFold_getD hs [] j hj]
  set prev := (idsFold [] hs).take j with hprev
  set t := (hs.getD j (0, "")).2 with ht
  by_cases hmem : t ∈ prev
  · have hmemr : t ∈ prev.reverse ++ [] := by simpa using hmem
    simp only [allocId, hmemr, if_true, if_pos hmem]
    congr 1
    apply congrArg
    apply find_congr
    intro n
    simp [smallestFreshSuffix]
  · have hmemr : ¬t ∈ prev.reverse ++ [] := by simpa using hmem
    simp only [allocId, hmemr, if_false, if_neg hmem]

/-- C4, counterexample to the claim as stated: for headings with texts
`A, A, A1` the third heading is the *first* with text `"A1"`, yet its id is
`"A11"`, not the bare `"A1"` the claim's first clause promises — the code
deduplicates against already-allocated ids, and `"A1"` was already handed
to the second heading. -/
theorem c4_first_text_counterexample :
    tocIds MakeToc.default [headingNode 1 "A", headingNode 1 "A", headingNode 1 "A1"] =
      ["A", "A1", "A11"] ∧ ("A11" : String) ≠ "A1" := by
  refine ⟨?_, by decide⟩
  have hmap : [headingNode 1 "A", headingNode 1 "A", headingNode 1 "A1"] =
      ([((1 : Nat), "A"), (1, "A"), (1, "A1")].map fun p => headingNode p.1 p.2) := rfl
  have hids : tocIds MakeToc.default
      ([((1 : Nat), "A"), (1, "A"), (1, "A1")].map fun p => headingNode p.1 p.2) =
      idsFold [] [((1 : Nat), "A"), (1, "A"), (1, "A1")] := by
    simp only [tocIds, tocEntries,
      makeTocScan_headingNodes MakeToc.default [((1 : Nat), "A"), (1, "A"), (1, "A1")] [] []
        (by decide),
      List.nil_append, idsFold]
  have s0 : allocId [] "A" = ("A", ["A"]) := allocId_not_mem [] "A" (by decide)
  have s1 : allocId ["A"] "A" = ("A1", ["A1", "A"]) := by
    rw [allocId_mem_one ["A"] "A" (by decide) (by decide)]
    decide
  have s2 : allocId ["A1", "A"] "A1" = ("A11", ["A11", "A1", "A"]) := by
    rw [allocId_mem_one ["A1", "A"] "A1" (by decide) (by decide)]
    decide
  rw [hmap, hids]
  simp only [idsFold_cons, idsFold_nil, s0, s1, s2]

/-- Witness for C4 at the claim's own example: six headings produce ids
`A, A1, B, X, Y, C` in order, and the amended characterization holds
there. -/
theorem c4_toc_anchor_ids_witness :
    tocIds MakeToc.default
      ([(1, "A"), (1, "A"), (1, "B"), (2, "X"), (2, "Y"), (1, "C")].map
        fun p => headingNode p.1 p.2) = ["A", "A1", "B", "X", "Y", "C"] ∧
    (tocIds MakeToc.default
      ([(1, "A"), (1, "A"), (1, "B"), (2, "X"), (2, "Y"), (1, "C")].map
        fun p => headingNode p.1 p.2)).Nodup := by
  constructor
  · have hids : tocIds MakeToc.default
        ([((1 : Nat), "A"), (1, "A"), (1, "B"), (2, "X"), (2, "Y"), (1, "C")].map
          fun p => headingNode p.1 p.2) =
        idsFold [] [((1 : Nat), "A"), (1, "A"), (1, "B"), (2, "X"), (2, "Y"), (1, "C")] := by
      simp only [tocIds, tocEntries,
        makeTocScan_headingNodes MakeToc.default
          [((1 : Nat), "A"), (1, "A"), (1, "B"), (2, "X"), (2, "Y"), (1, "C")] [] [] (by decide),
        List.nil_append, idsFold]
    have s0 : allocId [] "A" = ("A", ["A"]) := allocId_not_mem [] "A" (by decide)
    have s1 : allocId ["A"] "A" = ("A1", ["A1", "A"]) := by
      rw [allocId_mem_one ["A"] "A" (by decide) (by decide)]
      decide
    have s2 : allocId ["A1", "A"] "B" = ("B", ["B", "A1", "A"]) :=
      allocId_not_mem ["A1", "A"] "B" (by decide)
    have s3 : allocId ["B", "A1", "A"] "X" = ("X", ["X", "B", "A1", "A"]) :=
      allocId_not_mem ["B", "A1", "A"] "X" (by decide)
    have s4 : allocId ["X", "B", "A1", "A"] "Y" = ("Y", ["Y", "X", "B", "A1", "A"]) :=
      allocId_not_mem ["X", "B", "A1", "A"] "Y" (by decide)
    have s5 : allocId ["Y", "X", "B", "A1", "A"] "C" =
        ("C", ["C", "Y", "X", "B", "A1", "A"]) :=
      allocId_not_mem ["Y", "X", "B", "A1", "A"] "C" (by decide)
    rw [hids]
    simp only [idsFold_cons, idsFold_nil, s0, s1, s2, s3, s4, s5]
  · exact (c4_toc_anchor_ids [(1, "A"), (1, "A"), (1, "B"), (2, "X"), (2, "Y"), (1, "C")]
      (by decide)).1

/-- Witness for C7: the normalizer-spec equivalence at a concrete stream,
and the blank-line consequence on the spaces-only line
`Break, Space, Break`. -/
theorem c7_blank_line_normalizer_witness :
    spaceCutter [⟨TokenKind.Break, 0, 1⟩, ⟨TokenKind.Space, 1, 1⟩, ⟨TokenKind.Break, 2, 1⟩] =
      blankCutSpec [⟨TokenKind.Break, 0, 1⟩, ⟨TokenKind.Space, 1, 1⟩, ⟨TokenKind.Break, 2, 1⟩] ∧
    spaceCutter [⟨TokenKind.Break, 0, 1⟩, ⟨TokenKind.Space, 1, 1⟩, ⟨TokenKind.Break, 2, 1⟩] =
      spaceCutter [⟨TokenKind.Break, 0, 1⟩, ⟨TokenKind.Break, 2, 1⟩] :=
  ⟨(c7_blank_line_normalizer
      [⟨TokenKind.Break, 0, 1⟩, ⟨TokenKind.Space, 1, 1⟩, ⟨TokenKind.Break, 2, 1⟩]).1,
   (c7_blank_line_normalizer []).2 ⟨TokenKind.Break, 0, 1⟩ ⟨TokenKind.Break, 2, 1⟩
     [⟨TokenKind.Space, 1, 1⟩] [] rfl rfl (by decide)⟩

end NoteMark
